import Mathlib

/-!
# Verification of the concurrent LLDP/CDP network-discovery engine

A shallow embedding of `src/net_discovery.py`.  Python sets of strings are
modelled as duplicate-free `List String` values built with an order-preserving
insert (`pinsert`); the module-global `visited_global` / `results_global` pair
becomes the explicit `Shared` state threaded through every operation.  The
external collaborators (netmiko autodetection, SSH sessions, command
execution) are abstracted into an `Env` record; command execution is keyed by
a per-session call counter so that a session may answer the same command
differently on successive calls, as a real stateful session can.
-/

/-! ## Duplicate-free lists standing for Python `set` values -/

/-- Add an element to a duplicate-free list, keeping it duplicate-free
(models `set.add`). -/
def pinsert (x : String) (l : List String) : List String :=
  if l.contains x then l else l ++ [x]

/-- `a.update(b)` on Python sets: insert every element of `b` into `a`. -/
def punion (a b : List String) : List String :=
  b.foldl (fun acc x => pinsert x acc) a

/-- Python set difference `a - b`. -/
def pdiff (a b : List String) : List String :=
  a.filter (fun x => !(b.contains x))

/-- Collapse an arbitrary list to a duplicate-free one (models `set(xs)`). -/
def pOfList (xs : List String) : List String :=
  xs.foldl (fun acc x => pinsert x acc) []

theorem pcontains_iff {l : List String} {x : String} :
    l.contains x = true ↔ x ∈ l :=
  ⟨List.mem_of_elem_eq_true, List.elem_eq_true_of_mem⟩

theorem mem_pinsert {x y : String} {l : List String} :
    y ∈ pinsert x l ↔ y = x ∨ y ∈ l := by
  unfold pinsert
  split
  · rename_i h
    constructor
    · exact fun hy => Or.inr hy
    · rintro (rfl | hy)
      · exact pcontains_iff.mp h
      · exact hy
  · simp [or_comm]

theorem nodup_pinsert {x : String} {l : List String} (h : l.Nodup) :
    (pinsert x l).Nodup := by
  unfold pinsert
  split
  · exact h
  · rename_i hc
    have hx : x ∉ l := by
      intro hm
      exact hc (pcontains_iff.mpr hm)
    simpa [List.nodup_append] using ⟨h, hx⟩

theorem mem_punion {x : String} {a b : List String} :
    x ∈ punion a b ↔ x ∈ a ∨ x ∈ b := by
  unfold punion
  induction b generalizing a with
  | nil => simp
  | cons y ys ih =>
    simp only [List.foldl_cons]
    rw [ih, mem_pinsert]
    constructor
    · rintro ((rfl | h) | h)
      · exact Or.inr (List.mem_cons_self _ _)
      · exact Or.inl h
      · exact Or.inr (List.mem_cons_of_mem _ h)
    · rintro (h | h)
      · exact Or.inl (Or.inr h)
      · rcases List.mem_cons.mp h with rfl | h
        · exact Or.inl (Or.inl rfl)
        · exact Or.inr h

theorem nodup_punion {a b : List String} (h : a.Nodup) : (punion a b).Nodup := by
  unfold punion
  induction b generalizing a with
  | nil => simpa
  | cons y ys ih => exact ih (nodup_pinsert h)

theorem mem_pdiff {x : String} {a b : List String} :
    x ∈ pdiff a b ↔ x ∈ a ∧ x ∉ b := by
  unfold pdiff
  simp only [List.mem_filter, Bool.not_eq_true']
  constructor
  · rintro ⟨ha, hb⟩
    refine ⟨ha, fun hm => ?_⟩
    rw [pcontains_iff.mpr hm] at hb
    exact absurd hb (by simp)
  · rintro ⟨ha, hb⟩
    refine ⟨ha, ?_⟩
    cases hc : b.contains x
    · rfl
    · exact absurd (pcontains_iff.mp hc) hb

theorem mem_pOfList {x : String} {xs : List String} :
    x ∈ pOfList xs ↔ x ∈ xs := by
  unfold pOfList
  have : ∀ acc, x ∈ xs.foldl (fun acc x => pinsert x acc) acc ↔ x ∈ acc ∨ x ∈ xs := by
    intro acc
    induction xs generalizing acc with
    | nil => simp
    | cons y ys ih =>
      simp only [List.foldl_cons]
      rw [ih, mem_pinsert]
      constructor
      · rintro ((rfl | h) | h)
        · exact Or.inr (List.mem_cons_self _ _)
        · exact Or.inl h
        · exact Or.inr (List.mem_cons_of_mem _ h)
      · rintro (h | h)
        · exact Or.inl (Or.inr h)
        · rcases List.mem_cons.mp h with rfl | h
          · exact Or.inl (Or.inl rfl)
          · exact Or.inr h
  simpa using this []

theorem nodup_pOfList (xs : List String) : (pOfList xs).Nodup := by
  unfold pOfList
  have : ∀ acc : List String, acc.Nodup →
      (xs.foldl (fun acc x => pinsert x acc) acc).Nodup := by
    intro acc hacc
    induction xs generalizing acc with
    | nil => simpa
    | cons y ys ih => exact ih _ (nodup_pinsert hacc)
  exact this [] List.nodup_nil

/-! ## The address extractor (`extract_all_ips`, line 140-141)

`re.findall(r'\b(?:\d{1,3}\.){3}\d{1,3}\b', output)` is modelled by a
left-to-right, non-overlapping scan over the character list.  Because `.` is
not a digit, the greedy `\d{1,3}` followed by a literal `.` (or by the final
`\b`) succeeds exactly when the maximal digit run at the current position has
length 1..3 and is followed by the required delimiter, so the Python regex
engine's backtracking collapses to the deterministic checks below.  `\w` is
modelled as an ASCII alphanumeric or underscore, which is exact for device
command output. -/

/-- A regex word character (`\w`), as relevant to `\b` boundaries. -/
def wordChar (c : Char) : Bool := c.isAlphanum || c == '_'

/-- `\b` holds after the final digit group: end of input or a non-word char. -/
def okEnd : List Char → Bool
  | [] => true
  | c :: _ => !(wordChar c)

/-- Match `\d{1,3}\.` at the head: returns (consumed chars, rest). -/
def grpDotM (l : List Char) : Option (List Char × List Char) :=
  let d := l.takeWhile Char.isDigit
  let r := l.dropWhile Char.isDigit
  if 1 ≤ d.length ∧ d.length ≤ 3 ∧ r.head? = some '.' then
    some (d ++ ['.'], r.tail)
  else none

/-- Match the final `\d{1,3}\b` at the head: returns (digits, rest). -/
def grpEndM (l : List Char) : Option (List Char × List Char) :=
  let d := l.takeWhile Char.isDigit
  let r := l.dropWhile Char.isDigit
  if 1 ≤ d.length ∧ d.length ≤ 3 ∧ okEnd r = true then some (d, r) else none

/-- Match `(?:\d{1,3}\.){3}\d{1,3}\b` at the head of `l`. -/
def ipMatch (l : List Char) : Option (List Char × List Char) :=
  match grpDotM l with
  | none => none
  | some (m1, r1) =>
    match grpDotM r1 with
    | none => none
    | some (m2, r2) =>
      match grpDotM r2 with
      | none => none
      | some (m3, r3) =>
        match grpEndM r3 with
        | none => none
        | some (m4, r4) => some (m1 ++ m2 ++ m3 ++ m4, r4)

/-- Whether a string, on its own, matches the plain four-dotted-group pattern
`(?:\d{1,3}\.){3}\d{1,3}` in full (no boundary context, no octet-range
validation). -/
def ipPlain (l : List Char) : Bool :=
  match grpDotM l with
  | none => false
  | some (_, r1) =>
    match grpDotM r1 with
    | none => false
    | some (_, r2) =>
      match grpDotM r2 with
      | none => false
      | some (_, r3) =>
        decide (1 ≤ (r3.takeWhile Char.isDigit).length ∧
          (r3.takeWhile Char.isDigit).length ≤ 3 ∧
          r3.dropWhile Char.isDigit = [])

/-- Whether a match may begin here: `\b` before a digit means the previous
character (if any) is not a word character. -/
def boundaryOk : Option Char → Bool
  | none => true
  | some p => !(wordChar p)

/-- The `re.findall` scan: try a match at each position, emit it and jump
past it on success, else advance one character.  `prev` is the character
just before the current position; `fuel` only bounds the recursion and is
always given at least the length of the list. -/
def scanIpsF : Nat → Option Char → List Char → List String
  | 0, _, _ => []
  | _, _, [] => []
  | fuel + 1, prev, c :: rest =>
    if boundaryOk prev then
      match ipMatch (c :: rest) with
      | some (m, r) => String.mk m :: scanIpsF fuel (some (m.getLastD '0')) r
      | none => scanIpsF fuel (some c) rest
    else scanIpsF fuel (some c) rest

/-- The list of matches `re.findall` returns on `output`, in order. -/
def findall_ips (s : String) : List String :=
  scanIpsF s.data.length none s.data

/-- `extract_all_ips` (line 140-141): `set(re.findall(...))`. -/
def extract_all_ips (s : String) : List String :=
  pOfList (findall_ips s)

/-! ## Vendor command table and platform mapping (lines 14-56) -/

/-- `VENDOR_COMMANDS[platform].get(proto)`: `none` covers both a missing
entry and an explicit `None` command (either way the protocol is skipped). -/
def VENDOR_COMMANDS (platform proto : String) : Option String :=
  if platform = "cisco_ios" then
    if proto = "cdp" then some "show cdp neighbors detail"
    else if proto = "lldp" then some "show lldp neighbors detail"
    else none
  else if platform = "arista_eos" then
    if proto = "lldp" then some "show lldp neighbors detail" else none
  else if platform = "juniper" then
    if proto = "lldp" then some "show lldp neighbors detail" else none
  else if platform = "paloalto_panos" then
    if proto = "lldp" then some "show lldp neighbors" else none
  else if platform = "ubiquiti_edge" then
    if proto = "lldp" then some "show lldp neighbors" else none
  else none

/-- `device_type in VENDOR_COMMANDS`: the membership test at line 158. -/
def vendorSupported (p : String) : Bool :=
  p == "cisco_ios" || p == "arista_eos" || p == "juniper" ||
    p == "paloalto_panos" || p == "ubiquiti_edge"

/-- `PLATFORM_MAPPING` (lines 37-56).  Note: this table is defined at module
level in the source but is never consulted by `discover_single`, which checks
the raw detected identifier directly against `VENDOR_COMMANDS`. -/
def PLATFORM_MAPPING (raw : String) : Option String :=
  if raw = "cisco_ios" then some "cisco_ios"
  else if raw = "cisco_xe" then some "cisco_ios"
  else if raw = "cisco_xr" then some "cisco_ios"
  else if raw = "arista_eos" then some "arista_eos"
  else if raw = "juniper" then some "juniper"
  else if raw = "juniper_junos" then some "juniper"
  else if raw = "paloalto_panos" then some "paloalto_panos"
  else if raw = "ubiquiti_edgerouter" then some "ubiquiti_edge"
  else if raw = "ubiquiti_edgeswitch" then some "ubiquiti_edge"
  else none

/-! ## Text utilities used by the worker -/

/-- Strip leading and trailing characters satisfying `p` (Python `strip`). -/
def stripEnds (p : Char → Bool) (l : List Char) : List Char :=
  ((l.dropWhile p).reverse.dropWhile p).reverse

/-- Python `str.strip()` on a character list. -/
def trimChars (l : List Char) : List Char := stripEnds Char.isWhitespace l

/-- Split a character list on newline characters. -/
def splitLinesAux (acc : List Char) : List Char → List (List Char)
  | [] => [acc.reverse]
  | c :: rest =>
    if c = '\n' then acc.reverse :: splitLinesAux [] rest
    else splitLinesAux (c :: acc) rest

/-- `str.splitlines()` as used on already-stripped output. -/
def splitLines (l : List Char) : List (List Char) := splitLinesAux [] l

/-- Python `str.split()`: split on whitespace runs, dropping empty pieces. -/
def splitWsAux (acc : List Char) : List Char → List (List Char)
  | [] => if acc.isEmpty then [] else [acc.reverse]
  | c :: rest =>
    if c.isWhitespace then
      if acc.isEmpty then splitWsAux [] rest
      else acc.reverse :: splitWsAux [] rest
    else splitWsAux (c :: acc) rest

/-- Python `str.split()` on a character list. -/
def splitWs (l : List Char) : List (List Char) := splitWsAux [] l

/-- Substring containment on character lists (Python `in` on `str`). -/
def containsSub (pat : List Char) : List Char → Bool
  | [] => pat.isEmpty
  | c :: rest => pat.isPrefixOf (c :: rest) || containsSub pat rest

/-- `"syntax error" in str(e).lower()` (line 196). -/
def isSyntaxErr (e : String) : Bool :=
  containsSub "syntax error".data (e.data.map Char.toLower)

/-- `find_prompt().strip("#>").strip()` (line 170). -/
def hostClean (prompt : String) : String :=
  String.mk (trimChars (stripEnds (fun c => c == '#' || c == '>') prompt.data))

/-! ## `parse_juniper_lldp_interfaces` (lines 222-231) -/

/-- `parse_juniper_lldp_interfaces`: over `output.strip().splitlines()`, skip
lines starting with `"Local Interface"` and blank lines, and collect the
first whitespace-delimited token of each remaining line into a set. -/
def parse_juniper_lldp_interfaces (output : String) : List String :=
  pOfList ((splitLines (trimChars output.data)).filterMap (fun line =>
    if "Local Interface".data.isPrefixOf line || trimChars line = [] then none
    else
      match splitWs line with
      | [] => none
      | t :: _ => some (String.mk t)))

/-! ## The external collaborators and the shared mutable state -/

/-- The abstract environment of external collaborators.  `detect ip = none`
models `detect_device_type` returning `None` (autodetect failure or missing
credentials); `connect ip = false` models `ssh_connect` returning `None`;
`exec ip k cmd` is the output or raised-exception message of the `k`-th
`send_command` call of the session to `ip` (the counter makes the session
stateful); `crash ip = true` models an unexpected exception escaping the
worker (e.g. `find_prompt` raising at line 170), surfacing at
`future.result()`. -/
structure Env where
  detect : String → Option String
  connect : String → Bool
  hostname : String → String
  exec : String → Nat → String → Except String String
  crash : String → Bool

/-- One entry of `results_global`: `{'ip': .., 'device_type': .., 'hostname': ..}`. -/
structure DeviceRecord where
  ip : String
  device_type : String
  hostname : String
deriving DecidableEq, Repr

/-- The module-global shared state: `visited_global` and `results_global`
(lines 143-147), threaded explicitly. -/
structure Shared where
  visited : List String
  results : List DeviceRecord
deriving DecidableEq, Repr

/-! ## The single-node discovery worker (`discover_single`, lines 149-220) -/

/-- The per-interface detail command f-string (line 202). -/
def detailCmd (iface : String) : String :=
  "show lldp neighbors interface " ++ iface

/-- The `for iface in interfaces:` loop of the Juniper fallback (lines
201-204).  The loop body runs inside the inner `try`, so a failing detail
command aborts the remaining iterations but keeps the addresses already
unioned into `neighbor_ips`.  Returns (address set, next call counter,
commands sent). -/
def runDetailLoop (env : Env) (ip : String) (k : Nat) (acc : List String) :
    List String → List String × Nat × List String
  | [] => (acc, k, [])
  | i :: rest =>
    match env.exec ip k (detailCmd i) with
    | .error _ => (acc, k + 1, [detailCmd i])
    | .ok out =>
      let r := runDetailLoop env ip (k + 1) (punion acc (extract_all_ips out)) rest
      (r.1, r.2.1, detailCmd i :: r.2.2)

/-- The Juniper LLDP branch (lines 189-209): send the consolidated
`show lldp neighbors`; on an exception whose text contains "syntax error",
re-send `show lldp neighbors` as the summary, parse interface names, and run
one detail command per interface; any other failure is logged and yields no
addresses.  Returns (address set, next call counter, commands sent). -/
def juniperLldp (env : Env) (ip : String) (k : Nat) :
    List String × Nat × List String :=
  match env.exec ip k "show lldp neighbors" with
  | .ok out => (extract_all_ips out, k + 1, ["show lldp neighbors"])
  | .error e =>
    if isSyntaxErr e then
      match env.exec ip (k + 1) "show lldp neighbors" with
      | .error _ => ([], k + 2, ["show lldp neighbors", "show lldp neighbors"])
      | .ok summary =>
        let r := runDetailLoop env ip (k + 2) [] (parse_juniper_lldp_interfaces summary)
        (r.1, r.2.1, "show lldp neighbors" :: "show lldp neighbors" :: r.2.2)
    else ([], k + 1, ["show lldp neighbors"])

/-- One iteration of the `for proto in ['cdp', 'lldp']` loop (lines 184-218):
skip protocols without a command; take the Juniper-LLDP special branch;
otherwise run the table command, extracting addresses on success and logging
and continuing on failure. -/
def runProto (env : Env) (ip dt : String) (k : Nat) (proto : String) :
    List String × Nat :=
  match VENDOR_COMMANDS dt proto with
  | none => ([], k)
  | some cmd =>
    if dt = "juniper" ∧ proto = "lldp" then
      let r := juniperLldp env ip k
      (r.1, r.2.1)
    else
      match env.exec ip k cmd with
      | .ok out => (extract_all_ips out, k + 1)
      | .error _ => ([], k + 1)

/-- The whole protocol loop: CDP before LLDP, unioning into `neighbor_ips`. -/
def runProtocols (env : Env) (ip dt : String) : List String :=
  let c := runProto env ip dt 0 "cdp"
  let l := runProto env ip dt c.2 "lldp"
  punion (punion [] c.1) l.1

/-- `discover_single` (lines 149-220) run atomically: the visited check, the
detection / connection / command phases and the state mutations of one worker,
with no interleaving from other workers.  Returns the updated shared state,
the neighbor-address set, and the `[(ip, device_type)]` value of the final
`return` statement. -/
def discover_single (env : Env) (ip : String) (st : Shared) :
    Shared × List String × List (String × String) :=
  if st.visited.contains ip then (st, [], [])
  else
    match env.detect ip with
    | none => ({ st with visited := pinsert ip st.visited }, [], [])
    | some dt =>
      if dt = "" ∨ ¬ vendorSupported dt then
        ({ st with visited := pinsert ip st.visited }, [], [])
      else if ¬ env.connect ip then
        ({ st with visited := pinsert ip st.visited }, [], [])
      else
        let h := hostClean (env.hostname ip)
        let st1 : Shared :=
          { visited := pinsert ip st.visited
            results := st.results ++ [⟨ip, dt, h⟩] }
        (st1, runProtocols env ip dt, [(ip, dt)])

/-! ## The frontier scheduler (`concurrent_discover`, lines 233-257)

The thread pool is modelled by one realizable interleaving: workers complete
and have their results consumed by `as_completed` in list order, each worker
running without interruption.  `new_ips = neighbor_ips - visited_global` is
therefore computed against the visited set as it stands when that worker's
future is consumed, exactly as in the source.  A `crash ip` worker raises
before reaching any shared-state mutation and its exception is caught at the
`future.result()` boundary (lines 246-252). -/

/-- Process the futures of one depth level in order, accumulating
`next_to_visit`. -/
def processLevel (env : Env) (ips : List String) (st : Shared)
    (next : List String) : Shared × List String :=
  match ips with
  | [] => (st, next)
  | ip :: rest =>
    if env.crash ip then processLevel env rest st next
    else
      let r := discover_single env ip st
      processLevel env rest r.1 (punion next (pdiff r.2.1 r.1.visited))

/-- The `while current_depth <= max_depth and to_visit:` loop.  `budget` is
the number of remaining levels the depth bound still allows
(`max_depth - current_depth + 1`); the loop also stops on an empty frontier.
Returns the shared state and the frontier left unexplored at exit. -/
def discoverFrom (env : Env) (frontier : List String) (budget : Nat)
    (st : Shared) : Shared × List String :=
  match budget with
  | 0 => (st, frontier)
  | b + 1 =>
    if frontier.isEmpty then (st, frontier)
    else
      let r := processLevel env frontier st []
      discoverFrom env r.2 b r.1

/-- `concurrent_discover(seed_ip, ..., max_depth)`: seeds the frontier, runs
the level loop, and returns `(visited_global, results_global)` — the whole
`Shared` state. -/
def concurrent_discover (env : Env) (seed : String) (max_depth : Nat)
    (st : Shared) : Shared :=
  (discoverFrom env [seed] (max_depth + 1) st).1

/-! ## Persistence (`save_to_csv`, lines 259-272) -/

/-- `results[0].keys()` in dict insertion order: the record's Address,
PlatformId and Hostname fields, named as in the source. -/
def csvFieldNames : List String := ["ip", "device_type", "hostname"]

/-- The row `DictWriter` writes for one record. -/
def rowOf (r : DeviceRecord) : List String := [r.ip, r.device_type, r.hostname]

/-- `save_to_csv`: `none` means writing was skipped entirely (with a warning)
because no devices were discovered; otherwise the rows of the delimited file,
header first. -/
def save_to_csv (results : List DeviceRecord) : Option (List (List String)) :=
  if results.isEmpty then none
  else some (csvFieldNames :: results.map rowOf)

/-! ## Interleaved two-worker model of `discover_single`

For the at-most-once invariant the worker cannot be treated as atomic: the
source takes `visited_lock` once for the membership *test* (lines 150-153)
and only later, in separate critical sections, for the *insertion* (lines
161, 167, 172).  Each `WPhase` transition below is one lock-guarded region or
one blocking external call of `discover_single`; between transitions any
other worker may run. -/

/-- The worker's control point between atomic regions.
`start`: before the membership test; `checked`: test passed, about to detect
and connect; `ready`: detection, connection and `find_prompt` succeeded,
about to insert into `visited_global`; `addedV`: inserted, about to append
the record; `done b`: returned, having appended a record iff `b`. -/
inductive WPhase where
  | start
  | checked
  | ready
  | addedV
  | done (recorded : Bool)
deriving DecidableEq, Repr

/-- One atomic step of a worker for address `ip`. -/
def wstep (env : Env) (ip : String) : WPhase × Shared → WPhase × Shared
  | (.start, st) =>
    if st.visited.contains ip then (.done false, st) else (.checked, st)
  | (.checked, st) =>
    match env.detect ip with
    | none => (.done false, { st with visited := pinsert ip st.visited })
    | some dt =>
      if dt = "" ∨ ¬ vendorSupported dt then
        (.done false, { st with visited := pinsert ip st.visited })
      else if ¬ env.connect ip then
        (.done false, { st with visited := pinsert ip st.visited })
      else (.ready, st)
  | (.ready, st) => (.addedV, { st with visited := pinsert ip st.visited })
  | (.addedV, st) =>
    match env.detect ip with
    | some dt =>
      (.done true,
        { st with results :=
            st.results ++ [⟨ip, dt, hostClean (env.hostname ip)⟩] })
    | none => (.done false, st)
  | (.done b, st) => (.done b, st)

/-- Run two workers for the same address under a schedule: `true` steps the
first worker, `false` the second. -/
def race (env : Env) (ip : String) :
    List Bool → WPhase × WPhase × Shared → WPhase × WPhase × Shared
  | [], s => s
  | b :: bs, (w1, w2, st) =>
    if b then
      let r := wstep env ip (w1, st)
      race env ip bs (r.1, w2, r.2)
    else
      let r := wstep env ip (w2, st)
      race env ip bs (w1, r.1, r.2)

/-! ## Spec-side definitions used by the refinement claims -/

/-- All contiguous substrings of a character list. -/
def infixesOf (l : List Char) : List (List Char) :=
  (l.tails.map List.inits).flatten

/-- The set of distinct substrings of `s` that match the four dot-separated
1-to-3-digit-group pattern, following the spec's words for the Address
Extractor contract ("the set of distinct substrings matching an IPv4-literal
pattern"). -/
def specDistinctIpSubstrings (s : String) : List String :=
  pOfList ((infixesOf s.data).filterMap (fun m =>
    if ipPlain m then some (String.mk m) else none))

/-- The state transformer of one consumed future, following the spec's words
for the scheduler: a worker whose task raises contributes no mutation here
(it crashed before mutating), every other worker's effect is applied. -/
def stepSt (env : Env) (st : Shared) (ip : String) : Shared :=
  if env.crash ip then st else (discover_single env ip st).1

/-- The contribution of one worker to the next frontier, following the spec's
words: its returned neighbor set minus the addresses already visited at the
time of computation, and nothing at all for a worker whose task raises. -/
def contrib (env : Env) (st : Shared) (ip : String) : List String :=
  if env.crash ip then []
  else pdiff (discover_single env ip st).2.1 (discover_single env ip st).1.visited

/-- The shared state after the first `i` futures of a level were consumed. -/
def levelState (env : Env) (ips : List String) (st : Shared) : Shared :=
  ips.foldl (stepSt env) st

/-! ## Soundness of the extractor: every emitted match fits the pattern -/

theorem stripEnds_toDrop {p : Char → Bool} {d t : List Char}
    (hd : ∀ c ∈ d, p c = true) (ht : ∀ c, t.head? = some c → p c = false) :
    (d ++ t).takeWhile p = d ∧ (d ++ t).dropWhile p = t := by
  induction d with
  | nil =>
    simp only [List.nil_append]
    cases t with
    | nil => simp
    | cons c cs =>
      have hc : p c = false := ht c rfl
      simp [List.takeWhile, List.dropWhile, hc]
  | cons x xs ih =>
    have hx : p x = true := hd x (List.mem_cons_self _ _)
    have ih' := ih (fun c hc => hd c (List.mem_cons_of_mem _ hc))
    simp [List.takeWhile, List.dropWhile, hx, ih'.1, ih'.2]

theorem grpDotM_inv {l m r : List Char} (h : grpDotM l = some (m, r)) :
    m = l.takeWhile Char.isDigit ++ ['.'] ∧
      1 ≤ (l.takeWhile Char.isDigit).length ∧
      (l.takeWhile Char.isDigit).length ≤ 3 ∧
      l.dropWhile Char.isDigit = '.' :: r := by
  simp only [grpDotM] at h
  split at h
  · rename_i hcond
    obtain ⟨h1, h3, hh⟩ := hcond
    simp only [Option.some.injEq, Prod.mk.injEq] at h
    obtain ⟨hm, hr⟩ := h
    cases hd : l.dropWhile Char.isDigit with
    | nil => rw [hd] at hh; simp at hh
    | cons c cs =>
      rw [hd] at hh
      simp only [List.head?_cons, Option.some.injEq] at hh
      subst hh
      rw [hd] at hr
      simp only [List.tail_cons] at hr
      exact ⟨hm.symm, h1, h3, by rw [hr]⟩
  · exact absurd h (by simp)

theorem grpDotM_build {d t : List Char} (hd : ∀ c ∈ d, Char.isDigit c = true)
    (h1 : 1 ≤ d.length) (h3 : d.length ≤ 3) :
    grpDotM (d ++ '.' :: t) = some (d ++ ['.'], t) := by
  have hsp := stripEnds_toDrop (t := '.' :: t) hd
    (fun c hc => by simp only [List.head?_cons, Option.some.injEq] at hc; subst hc; rfl)
  unfold grpDotM
  rw [hsp.1, hsp.2]
  simp [h1, h3]

theorem grpEndM_inv {l m r : List Char} (h : grpEndM l = some (m, r)) :
    m = l.takeWhile Char.isDigit ∧ 1 ≤ m.length ∧ m.length ≤ 3 := by
  simp only [grpEndM] at h
  split at h
  · rename_i hcond
    simp only [Option.some.injEq, Prod.mk.injEq] at h
    obtain ⟨hm, _⟩ := h
    exact ⟨hm.symm, hm ▸ hcond.1, hm ▸ hcond.2.1⟩
  · exact absurd h (by simp)

theorem ipMatch_sound {l m r : List Char} (h : ipMatch l = some (m, r)) :
    ipPlain m = true := by
  unfold ipMatch at h
  cases hg1 : grpDotM l with
  | none => rw [hg1] at h; exact absurd h (by simp)
  | some p1 =>
    obtain ⟨m1, r1⟩ := p1
    simp only [hg1] at h
    cases hg2 : grpDotM r1 with
    | none => simp [hg2] at h
    | some p2 =>
      obtain ⟨m2, r2⟩ := p2
      simp only [hg2] at h
      cases hg3 : grpDotM r2 with
      | none => simp [hg3] at h
      | some p3 =>
        obtain ⟨m3, r3⟩ := p3
        simp only [hg3] at h
        cases hg4 : grpEndM r3 with
        | none => simp [hg4] at h
        | some p4 =>
          obtain ⟨m4, r4⟩ := p4
          simp only [hg4, Option.some.injEq, Prod.mk.injEq] at h
          obtain ⟨hm, _⟩ := h
          obtain ⟨hm1, h11, h13, _⟩ := grpDotM_inv hg1
          obtain ⟨hm2, h21, h23, _⟩ := grpDotM_inv hg2
          obtain ⟨hm3, h31, h33, _⟩ := grpDotM_inv hg3
          obtain ⟨hm4, h41, h43⟩ := grpEndM_inv hg4
          set d1 := l.takeWhile Char.isDigit with hd1
          set d2 := r1.takeWhile Char.isDigit with hd2
          set d3 := r2.takeWhile Char.isDigit with hd3
          have hdig1 : ∀ c ∈ d1, Char.isDigit c = true :=
            fun c hc => List.mem_takeWhile_imp hc
          have hdig2 : ∀ c ∈ d2, Char.isDigit c = true :=
            fun c hc => List.mem_takeWhile_imp hc
          have hdig3 : ∀ c ∈ d3, Char.isDigit c = true :=
            fun c hc => List.mem_takeWhile_imp hc
          have hdig4 : ∀ c ∈ m4, Char.isDigit c = true :=
            fun c hc => List.mem_takeWhile_imp (hm4 ▸ hc)
          have hsp4 := stripEnds_toDrop (t := ([] : List Char)) hdig4
            (fun c hc => by simp at hc)
          subst hm
          rw [hm1, hm2, hm3]
          have hb1 : grpDotM ((d1 ++ ['.']) ++ ((d2 ++ ['.']) ++ ((d3 ++ ['.']) ++ m4))) =
              some (d1 ++ ['.'], (d2 ++ ['.']) ++ ((d3 ++ ['.']) ++ m4)) := by
            have := grpDotM_build (t := (d2 ++ ['.']) ++ ((d3 ++ ['.']) ++ m4)) hdig1 h11 h13
            simpa [List.append_assoc] using this
          have hb2 : grpDotM ((d2 ++ ['.']) ++ ((d3 ++ ['.']) ++ m4)) =
              some (d2 ++ ['.'], (d3 ++ ['.']) ++ m4) := by
            have := grpDotM_build (t := (d3 ++ ['.']) ++ m4) hdig2 h21 h23
            simpa [List.append_assoc] using this
          have hb3 : grpDotM ((d3 ++ ['.']) ++ m4) = some (d3 ++ ['.'], m4) := by
            have := grpDotM_build (t := m4) hdig3 h31 h33
            simpa [List.append_assoc] using this
          unfold ipPlain
          simp only [List.append_assoc] at hb1 hb2 hb3 ⊢
          simp only [hb1, hb2, hb3]
          have ht4 : m4.takeWhile Char.isDigit = m4 := by simpa using hsp4.1
          have hq4 : m4.dropWhile Char.isDigit = [] := by simpa using hsp4.2
          simp [ht4, hq4, h41, h43]

theorem scanIpsF_sound :
    ∀ (fuel : Nat) (prev : Option Char) (l : List Char) (s : String),
      s ∈ scanIpsF fuel prev l → ipPlain s.data = true := by
  intro fuel
  induction fuel with
  | zero => intro prev l s h; simp [scanIpsF] at h
  | succ n ih =>
    intro prev l s h
    cases l with
    | nil => simp [scanIpsF] at h
    | cons c rest =>
      rw [scanIpsF] at h
      by_cases hb : boundaryOk prev = true
      · rw [if_pos hb] at h
        cases hm : ipMatch (c :: rest) with
        | none => rw [hm] at h; exact ih _ _ _ h
        | some p =>
          obtain ⟨m, r⟩ := p
          rw [hm] at h
          rcases List.mem_cons.mp h with rfl | h2
          · exact ipMatch_sound hm
          · exact ih _ _ _ h2
      · rw [if_neg hb] at h
        exact ih _ _ _ h

theorem extract_all_ips_sound {s : String} {m : String}
    (h : m ∈ extract_all_ips s) : ipPlain m.data = true := by
  unfold extract_all_ips at h
  exact scanIpsF_sound _ _ _ _ (mem_pOfList.mp h)

theorem pOfList_nil_iff {xs : List String} : pOfList xs = [] ↔ xs = [] := by
  constructor
  · intro h
    cases xs with
    | nil => rfl
    | cons y ys =>
      have : y ∈ pOfList (y :: ys) := mem_pOfList.mpr (List.mem_cons_self _ _)
      rw [h] at this
      simp at this
  · rintro rfl; rfl

/-! ## The per-interface fallback loop, characterized -/

/-- Union of the addresses extracted from `outs 0 .. outs (n-1)` on top of
`acc`, in loop order. -/
def unionExtracts (acc : List String) (outs : Nat → String) (n : Nat) :
    List String :=
  (List.range n).foldl (fun a j => punion a (extract_all_ips (outs j))) acc

theorem unionExtracts_shift (acc : List String) (outs : Nat → String) (n : Nat) :
    unionExtracts acc outs (n + 1) =
      unionExtracts (punion acc (extract_all_ips (outs 0)))
        (fun j => outs (j + 1)) n := by
  unfold unionExtracts
  rw [List.range_succ_eq_map, List.foldl_cons, List.foldl_map]

theorem mem_unionExtracts {x : String} {acc : List String} {outs : Nat → String}
    {n : Nat} :
    x ∈ unionExtracts acc outs n ↔
      x ∈ acc ∨ ∃ j, j < n ∧ x ∈ extract_all_ips (outs j) := by
  induction n generalizing acc outs with
  | zero => simp [unionExtracts]
  | succ k ih =>
    rw [unionExtracts_shift, ih, mem_punion]
    constructor
    · rintro ((h | h) | ⟨j, hj, h⟩)
      · exact Or.inl h
      · exact Or.inr ⟨0, Nat.succ_pos _, h⟩
      · exact Or.inr ⟨j + 1, Nat.succ_lt_succ hj, h⟩
    · rintro (h | ⟨j, hj, h⟩)
      · exact Or.inl (Or.inl h)
      · cases j with
        | zero => exact Or.inl (Or.inr h)
        | succ i => exact Or.inr ⟨i, Nat.lt_of_succ_lt_succ hj, h⟩

theorem runDetailLoop_ok (env : Env) (ip : String) :
    ∀ (ifaces : List String) (k : Nat) (acc : List String) (outs : Nat → String),
      (∀ j (hj : j < ifaces.length),
          env.exec ip (k + j) (detailCmd ifaces[j]) = .ok (outs j)) →
      runDetailLoop env ip k acc ifaces =
        (unionExtracts acc outs ifaces.length, k + ifaces.length,
          ifaces.map detailCmd) := by
  intro ifaces
  induction ifaces with
  | nil => intro k acc outs _; simp [runDetailLoop, unionExtracts]
  | cons i rest ih =>
    intro k acc outs h
    have h0 : env.exec ip k (detailCmd i) = .ok (outs 0) := by
      have := h 0 (Nat.succ_pos _)
      simpa using this
    have hrest : ∀ j (hj : j < rest.length),
        env.exec ip (k + 1 + j) (detailCmd rest[j]) = .ok (outs (j + 1)) := by
      intro j hj
      have hj' : j + 1 < (i :: rest).length := Nat.succ_lt_succ hj
      have := h (j + 1) hj'
      have hidx : (i :: rest)[j + 1] = rest[j] := rfl
      rw [hidx] at this
      have harith : k + (j + 1) = k + 1 + j := by omega
      rw [harith] at this
      exact this
    have hrec := ih (k + 1) (punion acc (extract_all_ips (outs 0)))
      (fun j => outs (j + 1)) hrest
    simp only [runDetailLoop, h0, hrec]
    simp only [List.length_cons, List.map_cons]
    rw [unionExtracts_shift]
    have harith2 : k + 1 + rest.length = k + (rest.length + 1) := by omega
    rw [harith2]

/-! ## Scheduler-level helper lemmas -/

theorem processLevel_fst (env : Env) :
    ∀ (ips : List String) (st : Shared) (next : List String),
      (processLevel env ips st next).1 = levelState env ips st := by
  intro ips
  induction ips with
  | nil => intro st next; rfl
  | cons ip rest ih =>
    intro st next
    rw [processLevel]
    by_cases hc : env.crash ip
    · rw [if_pos hc, ih]
      simp [levelState, stepSt, hc]
    · rw [if_neg hc]
      simp only [ih]
      simp [levelState, stepSt, hc]

theorem processLevel_snd_mem (env : Env) :
    ∀ (ips : List String) (st : Shared) (next : List String) (x : String),
      x ∈ (processLevel env ips st next).2 ↔
        x ∈ next ∨ ∃ i, ∃ hi : i < ips.length,
          x ∈ contrib env (levelState env (ips.take i) st) ips[i] := by
  intro ips
  induction ips with
  | nil =>
    intro st next x
    simp [processLevel]
  | cons ip rest ih =>
    intro st next x
    rw [processLevel]
    by_cases hc : env.crash ip
    · rw [if_pos hc, ih]
      constructor
      · rintro (h | ⟨j, hj, h⟩)
        · exact Or.inl h
        · refine Or.inr ⟨j + 1, Nat.succ_lt_succ hj, ?_⟩
          simpa [List.take_succ_cons, levelState, stepSt, hc] using h
      · rintro (h | ⟨i, hi, h⟩)
        · exact Or.inl h
        · cases i with
          | zero => simp [contrib, hc] at h
          | succ j =>
            refine Or.inr ⟨j, Nat.lt_of_succ_lt_succ hi, ?_⟩
            simpa [List.take_succ_cons, levelState, stepSt, hc] using h
    · rw [if_neg hc]
      simp only [ih, mem_punion]
      have hcon : pdiff (discover_single env ip st).2.1
          (discover_single env ip st).1.visited = contrib env st ip := by
        simp [contrib, hc]
      constructor
      · rintro ((h | h) | ⟨j, hj, h⟩)
        · exact Or.inl h
        · refine Or.inr ⟨0, Nat.succ_pos _, ?_⟩
          simpa [levelState, hcon] using h
        · refine Or.inr ⟨j + 1, Nat.succ_lt_succ hj, ?_⟩
          simpa [List.take_succ_cons, levelState, stepSt, hc] using h
      · rintro (h | ⟨i, hi, h⟩)
        · exact Or.inl (Or.inl h)
        · cases i with
          | zero =>
            refine Or.inl (Or.inr ?_)
            simpa [levelState, hcon] using h
          | succ j =>
            refine Or.inr ⟨j, Nat.lt_of_succ_lt_succ hi, ?_⟩
            simpa [List.take_succ_cons, levelState, stepSt, hc] using h

theorem ds_visited_mono (env : Env) (ip : String) (st : Shared) {x : String}
    (hx : x ∈ st.visited) : x ∈ (discover_single env ip st).1.visited := by
  unfold discover_single
  split
  · exact hx
  · split
    · exact mem_pinsert.mpr (Or.inr hx)
    · split
      · exact mem_pinsert.mpr (Or.inr hx)
      · split
        · exact mem_pinsert.mpr (Or.inr hx)
        · exact mem_pinsert.mpr (Or.inr hx)

theorem ds_results_ext (env : Env) (ip : String) (st : Shared) :
    ∃ t, (discover_single env ip st).1.results = st.results ++ t := by
  unfold discover_single
  split
  · exact ⟨[], by simp⟩
  · split
    · exact ⟨[], by simp⟩
    · split
      · exact ⟨[], by simp⟩
      · split
        · exact ⟨[], by simp⟩
        · exact ⟨_, rfl⟩

theorem stepSt_visited_mono (env : Env) (st : Shared) (ip : String) {x : String}
    (hx : x ∈ st.visited) : x ∈ (stepSt env st ip).visited := by
  unfold stepSt
  split
  · exact hx
  · exact ds_visited_mono env ip st hx

theorem stepSt_results_ext (env : Env) (st : Shared) (ip : String) :
    ∃ t, (stepSt env st ip).results = st.results ++ t := by
  unfold stepSt
  split
  · exact ⟨[], by simp⟩
  · exact ds_results_ext env ip st

theorem levelState_visited_mono (env : Env) :
    ∀ (ips : List String) (st : Shared) {x : String}, x ∈ st.visited →
      x ∈ (levelState env ips st).visited := by
  intro ips
  induction ips with
  | nil => intro st x hx; exact hx
  | cons ip rest ih =>
    intro st x hx
    rw [levelState, List.foldl_cons]
    exact ih _ (stepSt_visited_mono env st ip hx)

theorem levelState_results_ext (env : Env) :
    ∀ (ips : List String) (st : Shared),
      ∃ t, (levelState env ips st).results = st.results ++ t := by
  intro ips
  induction ips with
  | nil => intro st; exact ⟨[], by simp [levelState]⟩
  | cons ip rest ih =>
    intro st
    rw [levelState, List.foldl_cons]
    obtain ⟨t1, h1⟩ := stepSt_results_ext env st ip
    obtain ⟨t2, h2⟩ := ih (stepSt env st ip)
    exact ⟨t1 ++ t2, by rw [levelState] at h2; rw [h2, h1, List.append_assoc]⟩

theorem discoverFrom_succ (env : Env) (f : List String) (b : Nat) (st : Shared) :
    discoverFrom env f (b + 1) st =
      if f.isEmpty then (st, f)
      else
        discoverFrom env (processLevel env f st []).2 b
          (processLevel env f st []).1 := rfl

theorem discoverFrom_nil (env : Env) (b : Nat) (st : Shared) :
    discoverFrom env [] b st = (st, []) := by
  cases b <;> rfl

theorem discoverFrom_visited_mono (env : Env) :
    ∀ (b : Nat) (f : List String) (st : Shared) {x : String}, x ∈ st.visited →
      x ∈ (discoverFrom env f b st).1.visited := by
  intro b
  induction b with
  | zero => intro f st x hx; exact hx
  | succ n ih =>
    intro f st x hx
    rw [discoverFrom_succ]
    split
    · exact hx
    · exact ih _ _ (by rw [processLevel_fst]; exact levelState_visited_mono env f st hx)

theorem discoverFrom_results_ext (env : Env) :
    ∀ (b : Nat) (f : List String) (st : Shared),
      ∃ t, (discoverFrom env f b st).1.results = st.results ++ t := by
  intro b
  induction b with
  | zero => intro f st; exact ⟨[], by simp [discoverFrom]⟩
  | succ n ih =>
    intro f st
    rw [discoverFrom_succ]
    split
    · exact ⟨[], by simp⟩
    · obtain ⟨t1, h1⟩ := levelState_results_ext env f st
      obtain ⟨t2, h2⟩ := ih (processLevel env f st []).2 (processLevel env f st []).1
      refine ⟨t1 ++ t2, ?_⟩
      rw [h2, processLevel_fst, h1, List.append_assoc]

theorem processLevel_visited_single (env : Env) (ip : String) (st : Shared)
    (h : st.visited.contains ip = true) :
    processLevel env [ip] st [] = (st, []) := by
  rw [processLevel]
  by_cases hc : env.crash ip
  · rw [if_pos hc]; rfl
  · rw [if_neg hc]
    have hds : discover_single env ip st = (st, [], []) := by
      unfold discover_single
      rw [if_pos h]
    rw [hds]
    rfl

theorem concurrent_discover_noop (env : Env) (seed : String) (d : Nat)
    (st : Shared) (h : st.visited.contains seed = true) :
    concurrent_discover env seed d st = st := by
  unfold concurrent_discover
  rw [discoverFrom_succ]
  have hne : (([seed] : List String)).isEmpty = false := rfl
  rw [hne]
  simp only [Bool.false_eq_true, if_false]
  rw [processLevel_visited_single env seed st h, discoverFrom_nil]

theorem ds_visited_self (env : Env) (ip : String) (st : Shared) :
    ip ∈ (discover_single env ip st).1.visited := by
  unfold discover_single
  split
  · rename_i h
    exact pcontains_iff.mp h
  · split
    · exact mem_pinsert.mpr (Or.inl rfl)
    · split
      · exact mem_pinsert.mpr (Or.inl rfl)
      · split
        · exact mem_pinsert.mpr (Or.inl rfl)
        · exact mem_pinsert.mpr (Or.inl rfl)

theorem ds_neighbors_of_detect_none (env : Env) (ip : String) (st : Shared)
    (h : env.detect ip = none) : (discover_single env ip st).2.1 = [] := by
  unfold discover_single
  split
  · rfl
  · simp [h]

theorem levelState_mem_self (env : Env) :
    ∀ (ips : List String) (st : Shared) (ip : String), ip ∈ ips →
      env.crash ip = false → ip ∈ (levelState env ips st).visited := by
  intro ips
  induction ips with
  | nil => intro st ip h _; simp at h
  | cons a rest ih =>
    intro st ip h hcr
    rw [levelState, List.foldl_cons]
    rcases List.mem_cons.mp h with rfl | h2
    · refine levelState_visited_mono env rest (stepSt env st ip) ?_
      unfold stepSt
      rw [hcr]
      simp only [Bool.false_eq_true, if_false]
      exact ds_visited_self env ip st
    · exact ih (stepSt env st a) ip h2 hcr

/-! ## Concrete environments used by the scenario theorems and witnesses -/

/-- All-success environment for one `cisco_ios` device: used to exercise the
two-concurrent-workers interleaving. -/
def cEnv1 : Env where
  detect := fun _ => some "cisco_ios"
  connect := fun _ => true
  hostname := fun _ => "SW1#"
  exec := fun _ _ _ => .ok ""
  crash := fun _ => false

/-- Environment whose detector reports the raw identifier `cisco_xe`. -/
def cEnv2 : Env where
  detect := fun _ => some "cisco_xe"
  connect := fun _ => true
  hostname := fun _ => "XE1#"
  exec := fun _ _ _ => .ok "10.9.9.9"
  crash := fun _ => false

/-- Juniper session: call 0 raises a syntax-error-class exception, call 1
answers the summary, calls 2 and 3 answer the two per-interface detail
commands, and every later call raises a non-syntax error. -/
def cEnv3 : Env where
  detect := fun _ => some "juniper"
  connect := fun _ => true
  hostname := fun _ => "jnpr>"
  exec := fun _ k cmd =>
    if k = 0 then .error "error: Syntax error at neighbors detail"
    else if k = 1 then
      .ok "Local Interface    Chassis Id\nge-0/0/0  aa:bb\nge-0/0/1  cc:dd\n"
    else if cmd = detailCmd "ge-0/0/0" then .ok "mgmt 10.1.1.1"
    else if cmd = detailCmd "ge-0/0/1" then .ok "mgmt 10.1.1.2"
    else .error "timeout"
  crash := fun _ => false

/-- Juniper session whose consolidated LLDP command fails with a non-syntax
error. -/
def cEnv3d : Env where
  detect := fun _ => some "juniper"
  connect := fun _ => true
  hostname := fun _ => "jnpr2>"
  exec := fun _ _ _ => .error "connection reset"
  crash := fun _ => false

/-- The spec's depth-0 scenario: seed detects as `cisco_ios`, LLDP output
names `10.0.0.2` and `10.0.0.3`. -/
def cEnv5 : Env where
  detect := fun ip => if ip = "10.0.0.1" then some "cisco_ios" else none
  connect := fun _ => true
  hostname := fun _ => "R1#"
  exec := fun _ _ cmd =>
    if cmd = "show lldp neighbors detail" then
      .ok "Neighbor mgmt 10.0.0.2\nNeighbor mgmt 10.0.0.3"
    else .ok "no cdp neighbors"
  crash := fun _ => false

/-- Detection fails for `10.0.0.3`, which its sibling `10.0.0.2` reports as
an LLDP neighbor. -/
def cEnv7 : Env where
  detect := fun ip => if ip = "10.0.0.3" then none else some "cisco_ios"
  connect := fun _ => true
  hostname := fun _ => "R2#"
  exec := fun _ _ cmd =>
    if cmd = "show lldp neighbors detail" then .ok "peer 10.0.0.3" else .ok ""
  crash := fun _ => false

/-- Detection fails for `10.0.0.3`; no sibling worker reports it as an LLDP
neighbor. -/
def cEnv7b : Env where
  detect := fun ip => if ip = "10.0.0.3" then none else some "cisco_ios"
  connect := fun _ => true
  hostname := fun _ => "R3#"
  exec := fun _ _ _ => .ok "no neighbors"
  crash := fun _ => false

/-- Detection succeeds but the SSH connection fails. -/
def cEnvConnFail : Env where
  detect := fun _ => some "arista_eos"
  connect := fun _ => false
  hostname := fun _ => ""
  exec := fun _ _ _ => .error "unreachable"
  crash := fun _ => false

/-- Connection succeeds but every command execution fails. -/
def cEnvCmdFail : Env where
  detect := fun _ => some "cisco_ios"
  connect := fun _ => true
  hostname := fun _ => "C1#"
  exec := fun _ _ _ => .error "command timed out"
  crash := fun _ => false

/-! ## The claims -/

/-- Claim C1: the claim states that a worker's first step atomically
test-and-sets visited membership, so that even when the same address is
claimed by two concurrent workers exactly one proceeds and the other returns
an empty neighbor set and no record.  In the source the first step only
*tests* membership (lines 150-153) and the insertion happens in later,
separate critical sections (lines 161, 167, 172), so in the interleaving in
which both workers run their membership test before either inserts, both
workers proceed through detection, connection and recording: the run ends
with two discovery attempts and two records for one address. -/
theorem claim_C1_visited_race :
    race cEnv1 "10.0.0.1" [true, false, true, false, true, true, false, false]
        (.start, .start, ⟨[], []⟩) =
      (.done true, .done true,
        ⟨["10.0.0.1"],
         [⟨"10.0.0.1", "cisco_ios", "SW1"⟩, ⟨"10.0.0.1", "cisco_ios", "SW1"⟩]⟩) ∧
    ((race cEnv1 "10.0.0.1" [true, false, true, false, true, true, false, false]
        (.start, .start, ⟨[], []⟩)).2.2.results.filter
          (fun r => r.ip == "10.0.0.1")).length = 2 := by decide

/-- Claim C2: the claim states that raw identifiers `cisco_xe` / `cisco_xr`
are normalized to `cisco_ios` so the device is treated as supported.
`PLATFORM_MAPPING` does map both to `cisco_ios`, but `discover_single` never
consults it: it checks the raw identifier against `VENDOR_COMMANDS` (line
158), where `cisco_xe` and `cisco_xr` are absent, so such a device is marked
visited and skipped with no record and no commands run. -/
theorem claim_C2_platform_mapping_unused :
    PLATFORM_MAPPING "cisco_xe" = some "cisco_ios" ∧
    PLATFORM_MAPPING "cisco_xr" = some "cisco_ios" ∧
    vendorSupported "cisco_xe" = false ∧
    vendorSupported "cisco_xr" = false ∧
    cEnv2.detect "10.0.0.5" = some "cisco_xe" ∧
    discover_single cEnv2 "10.0.0.5" ⟨[], []⟩ = (⟨["10.0.0.5"], []⟩, [], []) := by
  decide

/-- Claim C5: the level loop is terminal exactly when the remaining depth
budget is exhausted or the frontier is empty; and in the spec's scenario
(seed `10.0.0.1`, depth 0, platform `cisco_ios`, LLDP output containing
`10.0.0.2` and `10.0.0.3`) exactly one record is produced, for `10.0.0.1`,
and the computed next frontier `{10.0.0.2, 10.0.0.3}` is left unexplored. -/
theorem claim_C5_depth_scenario :
    (∀ (env : Env) (f : List String) (st : Shared),
        discoverFrom env f 0 st = (st, f)) ∧
    (∀ (env : Env) (b : Nat) (st : Shared),
        discoverFrom env [] b st = (st, [])) ∧
    discoverFrom cEnv5 ["10.0.0.1"] 1 ⟨[], []⟩ =
      (⟨["10.0.0.1"], [⟨"10.0.0.1", "cisco_ios", "R1"⟩]⟩,
        ["10.0.0.2", "10.0.0.3"]) ∧
    concurrent_discover cEnv5 "10.0.0.1" 0 ⟨[], []⟩ =
      ⟨["10.0.0.1"], [⟨"10.0.0.1", "cisco_ios", "R1"⟩]⟩ :=
  ⟨fun _ _ _ => rfl, fun env b st => discoverFrom_nil env b st, by decide, by decide⟩

/-- Claim C8: calling `discover_single` on an address already in the visited
set returns an empty neighbor set and no record and leaves the shared state
(visited set and results collection) unchanged. -/
theorem claim_C8_idempotent (env : Env) (ip : String) (st : Shared)
    (h : st.visited.contains ip = true) :
    discover_single env ip st = (st, [], []) := by
  unfold discover_single
  rw [if_pos h]

/-- Witness for claim C8 at a concrete visited address. -/
theorem claim_C8_idempotent_witness :
    discover_single cEnv5 "10.0.0.1"
        ⟨["10.0.0.1"], [⟨"10.0.0.1", "cisco_ios", "R1"⟩]⟩ =
      (⟨["10.0.0.1"], [⟨"10.0.0.1", "cisco_ios", "R1"⟩]⟩, [], []) :=
  claim_C8_idempotent cEnv5 "10.0.0.1"
    ⟨["10.0.0.1"], [⟨"10.0.0.1", "cisco_ios", "R1"⟩]⟩ (by decide)

deriving instance DecidableEq for Except

/-- Claim C3: for a `juniper` worker under the `lldp` protocol, the branch
first attempts the single consolidated neighbor command; if that execution
fails with a syntax-error-class error it runs the summary command, parses
local interface names (skipping the header and blank lines and taking the
first whitespace-delimited token per line), runs one per-interface detail
command per parsed interface and unions the extracted addresses; any other
execution failure yields no addresses, is logged, and does not abort the
worker: the device record stands and `discover_single` returns normally. -/
theorem claim_C3_juniper_lldp_fallback :
    (∀ (env : Env) (ip : String) (k : Nat),
        (juniperLldp env ip k).2.2.head? = some "show lldp neighbors") ∧
    (∀ (env : Env) (ip : String) (k : Nat) (e summary : String)
        (outs : Nat → String),
        env.exec ip k "show lldp neighbors" = .error e →
        isSyntaxErr e = true →
        env.exec ip (k + 1) "show lldp neighbors" = .ok summary →
        (∀ j (hj : j < (parse_juniper_lldp_interfaces summary).length),
            env.exec ip (k + 2 + j)
                (detailCmd (parse_juniper_lldp_interfaces summary)[j]) =
              .ok (outs j)) →
        juniperLldp env ip k =
          (unionExtracts [] outs (parse_juniper_lldp_interfaces summary).length,
            k + 2 + (parse_juniper_lldp_interfaces summary).length,
            "show lldp neighbors" :: "show lldp neighbors" ::
              (parse_juniper_lldp_interfaces summary).map detailCmd) ∧
        ∀ x, x ∈ (juniperLldp env ip k).1 ↔
          ∃ j, j < (parse_juniper_lldp_interfaces summary).length ∧
            x ∈ extract_all_ips (outs j)) ∧
    (∀ (env : Env) (ip : String) (k : Nat) (e : String),
        env.exec ip k "show lldp neighbors" = .error e →
        isSyntaxErr e = false →
        juniperLldp env ip k = ([], k + 1, ["show lldp neighbors"])) ∧
    (∀ (env : Env) (ip : String) (st : Shared) (e : String),
        st.visited.contains ip = false →
        env.detect ip = some "juniper" →
        env.connect ip = true →
        env.exec ip 0 "show lldp neighbors" = .error e →
        isSyntaxErr e = false →
        discover_single env ip st =
          ({ visited := pinsert ip st.visited,
             results :=
               st.results ++ [⟨ip, "juniper", hostClean (env.hostname ip)⟩] },
            [], [(ip, "juniper")])) := by
  have hfall : ∀ (env : Env) (ip : String) (k : Nat) (e : String),
      env.exec ip k "show lldp neighbors" = .error e →
      isSyntaxErr e = false →
      juniperLldp env ip k = ([], k + 1, ["show lldp neighbors"]) := by
    intro env ip k e h1 h2
    simp [juniperLldp, h1, h2]
  refine ⟨?_, ?_, hfall, ?_⟩
  · intro env ip k
    cases h1 : env.exec ip k "show lldp neighbors" with
    | ok out => simp [juniperLldp, h1]
    | error e =>
      by_cases h2 : isSyntaxErr e = true
      · cases h3 : env.exec ip (k + 1) "show lldp neighbors" with
        | ok s => simp [juniperLldp, h1, h2, h3]
        | error e2 => simp [juniperLldp, h1, h2, h3]
      · simp [juniperLldp, h1, h2]
  · intro env ip k e summary outs h1 h2 h3 h4
    have hrun := runDetailLoop_ok env ip (parse_juniper_lldp_interfaces summary)
      (k + 2) [] outs h4
    have heq : juniperLldp env ip k =
        (unionExtracts [] outs (parse_juniper_lldp_interfaces summary).length,
          k + 2 + (parse_juniper_lldp_interfaces summary).length,
          "show lldp neighbors" :: "show lldp neighbors" ::
            (parse_juniper_lldp_interfaces summary).map detailCmd) := by
      simp [juniperLldp, h1, h2, h3, hrun]
    refine ⟨heq, fun x => ?_⟩
    rw [heq]
    simp only [mem_unionExtracts]
    simp
  · intro env ip st e hvis hdet hconn hexec hsyn
    have hj : juniperLldp env ip 0 = ([], 1, ["show lldp neighbors"]) :=
      hfall env ip 0 e hexec hsyn
    have hcdp : runProto env ip "juniper" 0 "cdp" = ([], 0) := rfl
    have hvc : VENDOR_COMMANDS "juniper" "lldp" =
        some "show lldp neighbors detail" := rfl
    have hlldp : runProto env ip "juniper" 0 "lldp" = ([], 1) := by
      simp [runProto, hvc, hj]
    have hrp : runProtocols env ip "juniper" = [] := by
      unfold runProtocols
      rw [hcdp]
      simp only
      rw [hlldp]
      rfl
    have hns : ¬ ("juniper" = "" ∨ ¬ vendorSupported "juniper" = true) := by
      decide
    simp only [discover_single, hvis, Bool.false_eq_true, if_false, hdet,
      hconn, hrp]
    rw [if_neg hns]
    simp

/-- Witness for claim C3: the concrete Juniper session `cEnv3` exercises the
syntax-error fallback (two interfaces, two detail commands, unioned
addresses), the non-syntax failure case at a later call, and `cEnv3d` shows
the worker still records the device when the consolidated command fails with
a non-syntax error. -/
theorem claim_C3_juniper_lldp_fallback_witness :
    (juniperLldp cEnv3 "10.0.0.7" 0).2.2.head? = some "show lldp neighbors" ∧
    juniperLldp cEnv3 "10.0.0.7" 0 =
      (["10.1.1.1", "10.1.1.2"], 4,
        ["show lldp neighbors", "show lldp neighbors",
          "show lldp neighbors interface ge-0/0/0",
          "show lldp neighbors interface ge-0/0/1"]) ∧
    juniperLldp cEnv3 "10.0.0.7" 9 = ([], 10, ["show lldp neighbors"]) ∧
    discover_single cEnv3d "10.0.0.8" ⟨[], []⟩ =
      (⟨["10.0.0.8"], [⟨"10.0.0.8", "juniper", "jnpr2"⟩]⟩, [],
        [("10.0.0.8", "juniper")]) := by
  refine ⟨claim_C3_juniper_lldp_fallback.1 cEnv3 "10.0.0.7" 0, ?_, ?_, ?_⟩
  · have := (claim_C3_juniper_lldp_fallback.2.1 cEnv3 "10.0.0.7" 0
      "error: Syntax error at neighbors detail"
      "Local Interface    Chassis Id\nge-0/0/0  aa:bb\nge-0/0/1  cc:dd\n"
      (fun j => if j = 0 then "mgmt 10.1.1.1" else "mgmt 10.1.1.2")
      rfl (by decide) rfl (by decide)).1
    rw [this]
    decide
  · exact claim_C3_juniper_lldp_fallback.2.2.1 cEnv3 "10.0.0.7" 9 "timeout"
      rfl (by decide)
  · have := claim_C3_juniper_lldp_fallback.2.2.2 cEnv3d "10.0.0.8" ⟨[], []⟩
      "connection reset" (by decide) rfl rfl rfl (by decide)
    rw [this]
    decide

/-- Claim C4, counterexample: the claim states the extractor returns the set
of *all* distinct substrings of the text matching the four dot-separated
1-to-3-digit-group pattern.  On `"1.2.3.4.5.6.7.8"` the substring
`"2.3.4.5"` matches the pattern (even with word-boundary context: it is
delimited by dots in the text) but the leftmost non-overlapping `re.findall`
scan returns only `{"1.2.3.4", "5.6.7.8"}`. -/
theorem claim_C4_counterexample :
    (∃ s t, s ++ "2.3.4.5".data ++ t = "1.2.3.4.5.6.7.8".data) ∧
    ipPlain "2.3.4.5".data = true ∧
    "2.3.4.5" ∈ specDistinctIpSubstrings "1.2.3.4.5.6.7.8" ∧
    "2.3.4.5" ∉ extract_all_ips "1.2.3.4.5.6.7.8" ∧
    extract_all_ips "1.2.3.4.5.6.7.8" = ["1.2.3.4", "5.6.7.8"] :=
  ⟨⟨"1.".data, ".6.7.8".data, by decide⟩, by decide, by decide, by decide,
    by decide⟩

/-- Claim C4, amended: for every input text the extractor totally returns the
set of distinct matches found by the left-to-right, non-overlapping,
word-boundary-delimited scan for the four dot-separated 1-to-3-digit-group
pattern: the result has no duplicates, every member matches the plain
pattern, octet ranges are not validated (`999.999.999.999` is accepted), and
when the scan finds nothing — in particular on empty input — the result is
empty.  (Substrings that overlap an earlier match or lack word boundaries
are not returned even though they match the pattern.) -/
theorem claim_C4_extractor_scan (s : String) :
    (extract_all_ips s).Nodup ∧
    (∀ m, m ∈ extract_all_ips s → ipPlain m.data = true) ∧
    (extract_all_ips s = [] ↔ findall_ips s = []) ∧
    extract_all_ips "" = [] ∧
    "999.999.999.999" ∈ extract_all_ips "999.999.999.999" := by
  refine ⟨nodup_pOfList _, fun m hm => extract_all_ips_sound hm,
    ⟨fun h => pOfList_nil_iff.mp h, fun h => ?_⟩, by decide, by decide⟩
  rw [extract_all_ips, h]
  rfl

/-- Witness for claim C4: the amended theorem applied to a concrete text,
with the membership hypothesis discharged on an extracted address. -/
theorem claim_C4_extractor_scan_witness :
    (extract_all_ips "ver 1.2 addr 10.20.30.40").Nodup ∧
    ipPlain "10.20.30.40".data = true :=
  ⟨(claim_C4_extractor_scan "ver 1.2 addr 10.20.30.40").1,
    (claim_C4_extractor_scan "ver 1.2 addr 10.20.30.40").2.1 "10.20.30.40"
      (by decide)⟩

/-- Claim C6: at the end of a level the accumulated next frontier consists
exactly of the contributions of that level's workers — each successfully
completed worker's returned neighbor set minus the addresses visited at the
time its future was consumed — while a worker whose task raises an
unexpected error contributes nothing; and the level is never aborted: the
resulting shared state is the fold of every worker's effect over the whole
frontier, crashes included. -/
theorem claim_C6_next_frontier (env : Env) (ips : List String) (st : Shared) :
    (processLevel env ips st []).1 = levelState env ips st ∧
    ∀ x, x ∈ (processLevel env ips st []).2 ↔
      ∃ i, ∃ hi : i < ips.length,
        x ∈ contrib env (levelState env (ips.take i) st) ips[i] := by
  refine ⟨processLevel_fst env ips st [], fun x => ?_⟩
  rw [processLevel_snd_mem]
  simp

/-- Claim C7, counterexample: the claim states that an address whose platform
detection fails is absent from the next frontier.  With frontier
`{10.0.0.2, 10.0.0.3}`, where `10.0.0.2` succeeds and reports `10.0.0.3` as
a neighbor and detection fails for `10.0.0.3`: when `10.0.0.2`'s future is
consumed before `10.0.0.3` has been marked visited — a realizable completion
order of the thread pool — `10.0.0.3` enters `next_to_visit` and stays
there, so the detection-failed address *is* in the next frontier (it is
skipped only on re-visit at the next level). -/
theorem claim_C7_counterexample :
    cEnv7.detect "10.0.0.3" = none ∧
    processLevel cEnv7 ["10.0.0.2", "10.0.0.3"] ⟨[], []⟩ [] =
      (⟨["10.0.0.2", "10.0.0.3"], [⟨"10.0.0.2", "cisco_ios", "R2"⟩]⟩,
        ["10.0.0.3"]) ∧
    "10.0.0.3" ∈ (processLevel cEnv7 ["10.0.0.2", "10.0.0.3"] ⟨[], []⟩ []).2 := by
  decide

/-- Claim C7, amended: every per-step failure is caught inside the worker and
the embedding returns normally: on detection failure the visited set gains
the address, no record is produced, and the worker returns no neighbors; on
connection failure likewise; on command-execution failure the record stands
and the worker returns normally with no neighbors.  For any frontier, a
detection-failed address is absent from the next frontier whenever no
same-level worker whose result was consumed before that address was claimed
reported it as a neighbor; and even when a sibling's earlier-consumed report
does place it in the next frontier, it is skipped immediately at the next
level: running discovery on it from the level's resulting state is a no-op
returning no neighbors and no record. -/
theorem claim_C7_failure_handling :
    (∀ (env : Env) (ip : String) (st : Shared),
        env.detect ip = none → st.visited.contains ip = false →
        discover_single env ip st =
          ({ st with visited := pinsert ip st.visited }, [], [])) ∧
    (∀ (env : Env) (ip dt : String) (st : Shared),
        env.detect ip = some dt → dt ≠ "" → vendorSupported dt = true →
        env.connect ip = false → st.visited.contains ip = false →
        discover_single env ip st =
          ({ st with visited := pinsert ip st.visited }, [], [])) ∧
    (∀ (env : Env) (ip : String) (st : Shared) (e1 e2 : String),
        env.detect ip = some "cisco_ios" → env.connect ip = true →
        st.visited.contains ip = false →
        env.exec ip 0 "show cdp neighbors detail" = .error e1 →
        env.exec ip 1 "show lldp neighbors detail" = .error e2 →
        discover_single env ip st =
          ({ visited := pinsert ip st.visited,
             results :=
               st.results ++ [⟨ip, "cisco_ios", hostClean (env.hostname ip)⟩] },
            [], [(ip, "cisco_ios")])) ∧
    (∀ (env : Env) (pre post : List String) (ip : String) (st : Shared),
        env.detect ip = none → env.crash ip = false →
        (∀ i (hi : i < pre.length), env.crash pre[i] = false →
            ip ∉ (discover_single env pre[i]
                (levelState env (pre.take i) st)).2.1) →
        ip ∉ (processLevel env (pre ++ ip :: post) st []).2) ∧
    (∀ (env : Env) (ips : List String) (ip : String) (st : Shared),
        env.detect ip = none → env.crash ip = false → ip ∈ ips →
        discover_single env ip ((processLevel env ips st []).1) =
          ((processLevel env ips st []).1, [], [])) := by
  have hdetect : ∀ (env : Env) (ip : String) (st : Shared),
      env.detect ip = none → st.visited.contains ip = false →
      discover_single env ip st =
        ({ st with visited := pinsert ip st.visited }, [], []) := by
    intro env ip st hdet hvis
    simp only [discover_single, hvis, Bool.false_eq_true, if_false, hdet]
  refine ⟨hdetect, ?_, ?_, ?_, ?_⟩
  · intro env ip dt st hdet hne hsup hconn hvis
    have hns : ¬ (dt = "" ∨ ¬ vendorSupported dt = true) := by
      rw [hsup]
      simp [hne]
    simp only [discover_single, hvis, Bool.false_eq_true, if_false, hdet]
    rw [if_neg hns, hconn]
    simp
  · intro env ip st e1 e2 hdet hconn hvis hc1 hc2
    have hvcc : VENDOR_COMMANDS "cisco_ios" "cdp" =
        some "show cdp neighbors detail" := rfl
    have hvcl : VENDOR_COMMANDS "cisco_ios" "lldp" =
        some "show lldp neighbors detail" := rfl
    have hcis : ("cisco_ios" = "juniper") = False :=
      eq_false (by decide)
    have hcdp : runProto env ip "cisco_ios" 0 "cdp" = ([], 1) := by
      simp only [runProto, hvcc, hcis, false_and, if_false, hc1]
    have hlldp : runProto env ip "cisco_ios" 1 "lldp" = ([], 2) := by
      simp only [runProto, hvcl, hcis, false_and, if_false, hc2]
    have hrp : runProtocols env ip "cisco_ios" = [] := by
      unfold runProtocols
      rw [hcdp]
      simp only
      rw [hlldp]
      rfl
    have hns : ¬ ("cisco_ios" = "" ∨ ¬ vendorSupported "cisco_ios" = true) := by
      decide
    simp only [discover_single, hvis, Bool.false_eq_true, if_false, hdet,
      hconn, hrp]
    rw [if_neg hns]
    simp
  · intro env pre post ip st hdet hcrash hpre hmem
    rw [processLevel_snd_mem] at hmem
    rcases hmem with h0 | ⟨i, hi, hc⟩
    · simp at h0
    rcases Nat.lt_trichotomy i pre.length with hlt | heq | hgt
    · have hix : (pre ++ ip :: post)[i] = pre[i] :=
        List.getElem_append_left hlt
      have htake : (pre ++ ip :: post).take i = pre.take i := by
        rw [List.take_append_eq_append_take]
        have h1 : i - pre.length = 0 := by omega
        rw [h1]
        simp
      rw [hix, htake] at hc
      unfold contrib at hc
      cases hcr : env.crash pre[i] with
      | true => rw [hcr] at hc; simp at hc
      | false =>
        rw [hcr] at hc
        simp only [Bool.false_eq_true, if_false] at hc
        exact hpre i hlt hcr (mem_pdiff.mp hc).1
    · subst heq
      have hix : (pre ++ ip :: post)[pre.length] = ip := by
        rw [List.getElem_append_right (le_refl pre.length)]
        simp
      rw [hix] at hc
      unfold contrib at hc
      rw [hcrash] at hc
      simp only [Bool.false_eq_true, if_false] at hc
      rw [ds_neighbors_of_detect_none env ip _ hdet] at hc
      simp [pdiff] at hc
    · have hsplit : pre ++ ip :: post = (pre ++ [ip]) ++ post := by simp
      have htake : (pre ++ ip :: post).take i =
          (pre ++ [ip]) ++ post.take (i - (pre ++ [ip]).length) := by
        rw [hsplit, List.take_append_eq_append_take,
          List.take_of_length_le (by simp; omega)]
      have hvis : ip ∈
          (levelState env ((pre ++ ip :: post).take i) st).visited := by
        rw [htake, levelState, List.foldl_append]
        exact levelState_visited_mono env (post.take (i - (pre ++ [ip]).length))
          (levelState env (pre ++ [ip]) st)
          (levelState_mem_self env (pre ++ [ip]) st ip (by simp) hcrash)
      unfold contrib at hc
      cases hcr : env.crash ((pre ++ ip :: post)[i]) with
      | true => rw [hcr] at hc; simp at hc
      | false =>
        rw [hcr] at hc
        simp only [Bool.false_eq_true, if_false] at hc
        exact (mem_pdiff.mp hc).2 (ds_visited_mono env _ _ hvis)
  · intro env ips ip st hdet hcrash hmem
    have h1 : (processLevel env ips st []).1.visited.contains ip = true := by
      rw [processLevel_fst]
      exact pcontains_iff.mpr (levelState_mem_self env ips st ip hmem hcrash)
    unfold discover_single
    rw [if_pos h1]

/-- Witness for claim C7: the amended theorem applied to concrete
environments: detection failure (`cEnv7` at `10.0.0.3`), connection failure
(`cEnvConnFail`), command-execution failure (`cEnvCmdFail`), next-frontier
absence for a three-address frontier in which the earlier-consumed sibling
reports nothing (`cEnv7b`), and the next-level no-op on the re-inserted
address of the counterexample run. -/
theorem claim_C7_failure_handling_witness :
    discover_single cEnv7 "10.0.0.3" ⟨[], []⟩ = (⟨["10.0.0.3"], []⟩, [], []) ∧
    discover_single cEnvConnFail "10.0.0.4" ⟨[], []⟩ =
      (⟨["10.0.0.4"], []⟩, [], []) ∧
    discover_single cEnvCmdFail "10.0.0.6" ⟨[], []⟩ =
      (⟨["10.0.0.6"], [⟨"10.0.0.6", "cisco_ios", "C1"⟩]⟩, [],
        [("10.0.0.6", "cisco_ios")]) ∧
    "10.0.0.3" ∉
      (processLevel cEnv7b ["10.0.0.2", "10.0.0.3", "10.0.0.4"] ⟨[], []⟩ []).2 ∧
    discover_single cEnv7 "10.0.0.3"
        ((processLevel cEnv7 ["10.0.0.2", "10.0.0.3"] ⟨[], []⟩ []).1) =
      (⟨["10.0.0.2", "10.0.0.3"], [⟨"10.0.0.2", "cisco_ios", "R2"⟩]⟩, [], []) := by
  refine ⟨?_, ?_, ?_, ?_, ?_⟩
  · exact claim_C7_failure_handling.1 cEnv7 "10.0.0.3" ⟨[], []⟩ rfl rfl
  · exact claim_C7_failure_handling.2.1 cEnvConnFail "10.0.0.4" "arista_eos"
      ⟨[], []⟩ rfl (by decide) rfl rfl rfl
  · exact claim_C7_failure_handling.2.2.1 cEnvCmdFail "10.0.0.6" ⟨[], []⟩
      "command timed out" "command timed out" rfl rfl rfl rfl rfl
  · exact claim_C7_failure_handling.2.2.2.1 cEnv7b ["10.0.0.2"] ["10.0.0.4"]
      "10.0.0.3" ⟨[], []⟩ rfl rfl (by decide)
  · exact claim_C7_failure_handling.2.2.2.2 cEnv7 ["10.0.0.2", "10.0.0.3"]
      "10.0.0.3" ⟨[], []⟩ rfl rfl (by decide)

/-- Claim C9: the persistence step produces a delimited file whose header row
names the record's three fields — the Address, PlatformId and Hostname of
the data model, named `ip`, `device_type`, `hostname` in the source —
followed by exactly one row per discovered record, if and only if at least
one record was discovered; with zero records, writing is skipped entirely
(with a warning) and no file content is produced. -/
theorem claim_C9_csv (res : List DeviceRecord) :
    (save_to_csv res = none ↔ res = []) ∧
    (res ≠ [] → save_to_csv res = some (csvFieldNames :: res.map rowOf)) ∧
    (∀ rows, save_to_csv res = some rows →
      rows.length = res.length + 1 ∧ rows.head? = some csvFieldNames ∧
        rows.tail = res.map rowOf) := by
  cases res with
  | nil =>
    refine ⟨by simp [save_to_csv], fun h => absurd rfl h, fun rows hr => ?_⟩
    simp [save_to_csv] at hr
  | cons r rest =>
    have hne : (r :: rest).isEmpty = false := rfl
    refine ⟨?_, fun _ => ?_, fun rows hr => ?_⟩
    · rw [save_to_csv, hne]
      simp
    · rw [save_to_csv, hne]
      rfl
    · rw [save_to_csv, hne] at hr
      simp only [Bool.false_eq_true, if_false, Option.some.injEq] at hr
      subst hr
      simp

/-- Witness for claim C9: one record yields a header plus one row; zero
records yield no file. -/
theorem claim_C9_csv_witness :
    save_to_csv [⟨"10.0.0.1", "cisco_ios", "R1"⟩] =
      some [["ip", "device_type", "hostname"],
            ["10.0.0.1", "cisco_ios", "R1"]] ∧
    save_to_csv [] = none := by
  constructor
  · exact (claim_C9_csv [⟨"10.0.0.1", "cisco_ios", "R1"⟩]).2.1 (by decide)
  · exact (claim_C9_csv []).1.mpr rfl

/-- Claim C10: the visited set and results collection behave as module-global
state that is never reset and is returned directly: across two successive
`concurrent_discover` calls the second call's returned state contains every
visited address of the first and extends its record list, and a second run
whose seed was already visited leaves the state exactly as the first call
returned it (in particular, no new records). -/
theorem claim_C10_global_state (env1 env2 : Env) (seed1 seed2 : String)
    (d1 d2 : Nat) (st0 : Shared) :
    (∀ x, x ∈ (concurrent_discover env1 seed1 d1 st0).visited →
        x ∈ (concurrent_discover env2 seed2 d2
              (concurrent_discover env1 seed1 d1 st0)).visited) ∧
    (∃ t, (concurrent_discover env2 seed2 d2
            (concurrent_discover env1 seed1 d1 st0)).results =
          (concurrent_discover env1 seed1 d1 st0).results ++ t) ∧
    ((concurrent_discover env1 seed1 d1 st0).visited.contains seed2 = true →
      concurrent_discover env2 seed2 d2 (concurrent_discover env1 seed1 d1 st0) =
        concurrent_discover env1 seed1 d1 st0) :=
  ⟨fun _ hx => discoverFrom_visited_mono env2 _ _ _ hx,
    discoverFrom_results_ext env2 _ _ _,
    fun h => concurrent_discover_noop env2 seed2 d2 _ h⟩

/-- Witness for claim C10: running the depth-0 scenario and then a second
run from the already-visited seed: the second run returns the first run's
state unchanged. -/
theorem claim_C10_global_state_witness :
    "10.0.0.1" ∈ (concurrent_discover cEnv5 "10.0.0.1" 3
        (concurrent_discover cEnv5 "10.0.0.1" 0 ⟨[], []⟩)).visited ∧
    concurrent_discover cEnv5 "10.0.0.1" 3
        (concurrent_discover cEnv5 "10.0.0.1" 0 ⟨[], []⟩) =
      concurrent_discover cEnv5 "10.0.0.1" 0 ⟨[], []⟩ := by
  constructor
  · exact (claim_C10_global_state cEnv5 cEnv5 "10.0.0.1" "10.0.0.1" 0 3
      ⟨[], []⟩).1 "10.0.0.1" (by decide)
  · exact (claim_C10_global_state cEnv5 cEnv5 "10.0.0.1" "10.0.0.1" 0 3
      ⟨[], []⟩).2.2 (by decide)
